import Mathlib

set_option maxHeartbeats 1000000

/-!
Shallow embedding of the batched beam-search decoding engine of the
lexicon-enhanced lemmatizer, translated from
src/lexenlem/models/common/seq2seq_model.py (class Seq2SeqModelCombined:
predict, predict_greedy, forward, and the nested update_state helper) and
its near-duplicate src/stanfordnlp/models/common/seq2seq_model.py.

The neural Scorer (embeddings, encoders, attention decoder, edit classifier)
is out of scope per the spec and is embedded as an opaque interface: a
per-example recurrent state of abstract type sigma, a transition function
fed one token per decode step, an output function producing next-token
log-probabilities (integers stand in for the float log-probabilities: every
claim settled here is a control-flow property that does not depend on the
numeric domain), an attention side-channel, and an abstract edit-classifier
output fixed at encode time.  The batched decode of the source operates
rowwise (one LSTM row per example and beam slot), which is what the
per-example state models.

The Beam class (lexenlem/models/common/beam.py), the prune_hyp utility and
the seq2seq_constant module are referenced by the source but are not among
the provided source files; they are modelled from the spec (sections 3, 4.1,
4.4 and 8) where so marked.
-/

/-- Modelled from the spec: the seq2seq_constant module is not among the
provided sources; token ids follow the spec section 8 scenario vocabulary
(PAD=0, SOS=1, EOS=2). -/
def PAD_ID : Nat := 0

/-- Modelled from the spec: start-of-sequence token id. -/
def SOS_ID : Nat := 1

/-- Modelled from the spec: end-of-sequence token id. -/
def EOS_ID : Nat := 2

/-- A token is a control token when it is padding, start-of-sequence or
end-of-sequence (spec section 4.4). -/
def isControl (t : Nat) : Bool := t == PAD_ID || t == SOS_ID || t == EOS_ID

/-- Modelled from the spec: utils.prune_hyp is not among the provided
sources; per spec section 4.4 the extractor strips leading and trailing
control tokens (start-of-sequence, end-of-sequence, padding) from a
backtraced hypothesis. -/
def prune_hyp (hyp : List Nat) : List Nat :=
  ((hyp.dropWhile isControl).reverse.dropWhile isControl).reverse

/-- The opaque Scorer interface the decoder drives (spec sections 1 and 6).
One value of type sigma is the recurrent decoder state of one example (or
of one beam slot of one example); the batched decode of the source acts on
each row independently.  initSt gives the post-encode initial state of each
example, stepFn feeds one token (the source's decode updates (hn, cn)),
outFn is the log-softmax over the vocabulary after the step, attnFn the
attention weights returned alongside, and edit the edit-classifier logits
computed from the encoder's final state (None when the model has no edit
head, mirroring lines 529-532 of seq2seq_model.py). -/
structure Scorer (σ : Type) where
  initSt : Nat → σ
  stepFn : σ → Nat → σ
  outFn : σ → List Int
  attnFn : σ → List Int
  edit : Option (List Int)

/-- Pair each element of a list with its index, starting from n. -/
def idxFrom : Nat → List Int → List (Nat × Int)
  | _, [] => []
  | n, x :: xs => (n, x) :: idxFrom (n + 1) xs

/-- Fold selecting the pair with the maximal score; on ties the earlier
element is kept, so over an index-ascending candidate list this realizes
the deterministic tie-break of spec section 4.1 (lower flattened index
first). -/
def pickBest (c : Nat × Int) (cs : List (Nat × Int)) : Nat × Int :=
  cs.foldl (fun acc d => if acc.2 < d.2 then d else acc) c

/-- Best candidate of a list: maximal score, ties to the earliest entry. -/
def argBest : List (Nat × Int) → Option (Nat × Int)
  | [] => none
  | c :: cs => some (pickBest c cs)

/-- Index of the maximal entry of a log-probability row, ties to the lowest
index (the behavior of torch.max(dim) used by predict_greedy, line 482). -/
def argmaxIdx (l : List Int) : Nat := ((argBest (idxFrom 0 l)).getD (0, 0)).1

/-- Top-k selection by repeatedly extracting the best remaining candidate:
rank order is score-descending with ties broken by the lower flattened
index (spec section 4.1). -/
def selectTop : Nat → List (Nat × Int) → List (Nat × Int)
  | 0, _ => []
  | k + 1, cs =>
    match argBest cs with
    | none => []
    | some c => c :: selectTop k (cs.erase c)

/-- Modelled from the spec: the Beam class (beam.py) is not among the
provided sources.  Per spec section 3: width; done; the K current
cumulative scores; the grown rows of chosen tokens and of backpointers
(oldest first, one row per advance); and the K most recent token ids
served by get_current_state (initially start-of-sequence in the first slot
and padding elsewhere, only the first slot being expandable at step 0). -/
structure Beam where
  width : Nat
  done : Bool
  scores : List Int
  tokRows : List (List Nat)
  bpRows : List (List Nat)
  curTokens : List Nat
deriving DecidableEq

/-- A fresh Beam for one example (spec section 3; scores of the non-first
initial slots are never consulted before being overwritten, because step 0
ranks only the first slot's expansions per the section 4.1 special case). -/
def Beam.init (K : Nat) : Beam :=
  ⟨K, false, List.replicate K 0, [], [], SOS_ID :: List.replicate (K - 1) PAD_ID⟩

/-- Modelled from the spec, section 4.1: advance combines each row of step
log-probabilities with its candidate's cumulative score, flattens to one
ranking over (candidate, token) pairs (flattened index i*V + v), selects
the top K descending with ties to the lower flattened index, records the
chosen tokens and originating candidate indices as new rows, and declares
done when the rank-0 token is end-of-sequence.  Step 0 ranks only the
single real starting candidate's row.  advance on a Beam already done is a
no-op (spec section 4.1, failure conditions). -/
def Beam.advance (b : Beam) (lps : List (List Int)) : Beam :=
  if b.done then b else
    let V := (lps.headD []).length
    let cands : List (Nat × Int) :=
      if b.bpRows.isEmpty then idxFrom 0 (lps.headD [])
      else (List.range lps.length).flatMap
        (fun i => (idxFrom 0 (lps.getD i [])).map
          (fun q => (i * V + q.1, b.scores.getD i 0 + q.2)))
    let top := selectTop b.width cands
    let toks := top.map (fun p => p.1 % V)
    { width := b.width
      done := decide (toks.headD (EOS_ID + 1) = EOS_ID)
      scores := top.map (fun p => p.2)
      tokRows := b.tokRows ++ [toks]
      bpRows := b.bpRows ++ [top.map (fun p => p.1 / V)]
      curTokens := toks }

/-- The most recent backpointer row (get_current_origin of spec section
4.1), fed to the state reordering after each advance. -/
def Beam.curOrigin (b : Beam) : List Nat := b.bpRows.getLastD []

/-- Backtrace through (token row, backpointer row) pairs given latest row
first: the token of the current slot is collected, then the walk continues
from the slot the backpointer names (spec section 4.1, get_hyp). -/
def backtrace : List (List Nat × List Nat) → Nat → List Nat
  | [], _ => []
  | (toks, bps) :: rest, k => backtrace rest (bps.getD k 0) ++ [toks.getD k 0]

/-- Modelled from the spec, section 4.1: get_hyp reconstructs the full
token sequence of final rank k by walking the backpointer rows from the
last step to the first. -/
def Beam.getHyp (b : Beam) (k : Nat) : List Nat :=
  backtrace ((b.tokRows.zip b.bpRows).reverse) k

/-- Modelled from the spec, section 4.1: sort_best ranks the K final scores
descending; the decoder always takes rank 0.  Ties go to the lower slot
index, the deterministic tie-break of section 4.1. -/
def Beam.rank0 (b : Beam) : Nat := ((argBest (idxFrom 0 b.scores)).getD (0, 0)).1

/-! ## The greedy path (predict_greedy, seq2seq_model.py lines 445-505) -/

/-- Per-example state of the greedy decode loop: recurrent state, the token
fed next step (the example's own argmax prediction, updated for done
examples too, line 483), the done flag and the output sequence built so
far (lines 473-476). -/
structure GEx (σ : Type) where
  st : σ
  cur : Nat
  done : Bool
  out : List Nat

/-- One greedy loop body for one example (lines 480-493): step the scorer
on the current token, take the argmax prediction, feed it back as the next
input, and unless the example is already done either mark it done (on
end-of-sequence) or append the token to its output.  Also returns the
step's attention row for the side channel (line 485). -/
def gstepA (sc : Scorer σ) (e : GEx σ) : GEx σ × List Int :=
  let s' := sc.stepFn e.st e.cur
  let p := argmaxIdx (sc.outFn s')
  (⟨s', p, e.done || decide (p = EOS_ID),
    if e.done then e.out else if p = EOS_ID then e.out else e.out ++ [p]⟩,
   sc.attnFn s')

/-- The state component of one greedy loop body. -/
def gstep (sc : Scorer σ) (e : GEx σ) : GEx σ := (gstepA sc e).1

/-- Whole-batch greedy loop state: the per-example states and the collected
per-step attention rows (lines 478, 485). -/
structure GState (σ : Type) where
  exs : List (GEx σ)
  attns : List (List (List Int))

/-- The greedy while loop (line 479): while not every example is done and
fewer than max_dec_len steps were taken, run one body over the batch. -/
def grun (sc : Scorer σ) : Nat → GState σ → GState σ
  | 0, gs => gs
  | n + 1, gs =>
    if gs.exs.all (fun e => e.done) then gs
    else
      let prs := gs.exs.map (gstepA sc)
      grun sc n ⟨prs.map Prod.fst, gs.attns ++ [prs.map Prod.snd]⟩

/-- Initial greedy states: each example starts from its post-encode state
with the start-of-sequence token as first decoder input (lines 470-476). -/
def initGExs (sc : Scorer σ) (batch : Nat) : List (GEx σ) :=
  (List.range batch).map (fun i => ⟨sc.initSt i, SOS_ID, false, []⟩)

/-- The output sequences of the greedy path after max_dec_len-bounded
decoding. -/
def greedyHyps (sc : Scorer σ) (batch m : Nat) : List (List Nat) :=
  (grun sc m ⟨initGExs sc batch, []⟩).exs.map (fun e => e.out)

/-! ## Python-level value model for the log_attn block of predict -/

/-- The Python errors the embedded code can raise. -/
inductive PyErr
  | attributeError
  | runtimeError
  | indexError
  | zeroDivisionError
deriving DecidableEq

/-- A minimal model of the Python values flowing through the log_attn
block: plain ints (produced by i.item() at line 582), 0-dimensional
tensors, and lists. -/
inductive PyVal
  | pyint (n : Nat)
  | pytensor (n : Nat)
  | pylist (xs : List Nat)
deriving DecidableEq

/-- The tolist method: defined on tensors, an AttributeError on plain
Python ints and lists (the call at line 591 hits the int case). -/
def PyVal.tolist : PyVal → Except PyErr PyVal
  | .pytensor n => .ok (.pyint n)
  | _ => .error .attributeError

/-- The attention log assembled by predict_greedy when log_attn is set
(lines 495-503); src and lem only matter through the Scorer here, so the
recorded fields are the collected attention rows and the hypotheses. -/
structure GLog where
  attns : List (List (List Int))
  hyps : List (List Nat)
deriving DecidableEq

/-- The value predict returns: a 2-tuple (all_hyp, edit_logits) from the
beam branch (line 595), or the 3-tuple (output_seqs, edit_logits,
log_attns) from predict_greedy (line 505). -/
inductive PredRet
  | pair (hyps : List (List Nat)) (edit : Option (List Int))
  | triple (hyps : List (List Nat)) (edit : Option (List Int)) (attns : Option GLog)
deriving DecidableEq

deriving instance DecidableEq for Except

/-- The token sequences carried by either return shape. -/
def retHyps : PredRet → List (List Nat)
  | .pair hyps _ => hyps
  | .triple hyps _ _ => hyps

/-- The edit-logits component carried by either return shape. -/
def retEdit : PredRet → Option (List Int)
  | .pair _ e => e
  | .triple _ e _ => e

/-- The greedy prediction path, predict_greedy (lines 445-505): run the
greedy loop, return the output sequences, the pass-through edit logits and
(when log_attn is set) the assembled attention log, as a 3-tuple. -/
def predictGreedy (sc : Scorer σ) (batch m : Nat) (logAttn : Bool) :
    Except PyErr PredRet :=
  let final := grun sc m ⟨initGExs sc batch, []⟩
  let outs := final.exs.map (fun e => e.out)
  .ok (.triple outs sc.edit (if logAttn then some ⟨final.attns, outs⟩ else none))

/-! ## The beam path (predict, seq2seq_model.py lines 507-595) -/

/-- Per-example state of the beam loop: the K beam-slot recurrent states
(the example's rows of the replicated (hn, cn), lines 541-542) and its
Beam. -/
structure BEx (σ : Type) where
  sts : List σ
  beam : Beam

/-- A default BEx, used only as the getD fallback. -/
def dBEx : BEx σ := ⟨[], Beam.init 0⟩

/-- One beam loop body for one example (lines 555-569): step each slot's
state on that slot's current token, collect the K log-probability rows,
advance the Beam, then reorder the slot states by the fresh backpointers
(update_state with get_current_origin: new slot j takes the stepped state
of the slot the backpointer names). -/
def bstepEx [Inhabited σ] (sc : Scorer σ) (e : BEx σ) : BEx σ :=
  let stepped := (e.sts.zip e.beam.curTokens).map (fun p => sc.stepFn p.1 p.2)
  let lps := stepped.map sc.outFn
  let b' := e.beam.advance lps
  ⟨(List.range e.beam.width).map
      (fun j => stepped.getD (b'.curOrigin.getD j 0) default),
   b'⟩

/-- Initial beam states (lines 534-543): each example's K slots start from
identical replicated encoder state, with a fresh Beam. -/
def initBExs (sc : Scorer σ) (batch K : Nat) : List (BEx σ) :=
  (List.range batch).map (fun i => ⟨List.replicate K (sc.initSt i), Beam.init K⟩)

/-- The main beam loop (lines 554-572) together with the number of loop
iterations executed, i.e. the number of rounds of Scorer decode calls: for
i in range(max_dec_len), run one body over the batch, then break when
every Beam reports done. -/
def runBeamLoopN [Inhabited σ] (sc : Scorer σ) :
    Nat → List (BEx σ) → List (BEx σ) × Nat
  | 0, st => (st, 0)
  | n + 1, st =>
    let st' := st.map (bstepEx sc)
    if st'.all (fun e => e.beam.done) then (st', 1)
    else
      let r := runBeamLoopN sc n st'
      (r.1, r.2 + 1)

/-- The final per-example states of the beam loop. -/
def runBeamLoop [Inhabited σ] (sc : Scorer σ) (m : Nat) (st : List (BEx σ)) :
    List (BEx σ) :=
  (runBeamLoopN sc m st).1

/-- The beam branch of predict (lines 512-595): run the loop, backtrace
rank 0 of each Beam through get_hyp, prune, and return (all_hyp,
edit_logits).  When log_attn is set the logging block (lines 585-593) maps
tolist over the entries of all_hyp, which at that point are plain Python
ints produced by i.item() (line 582); the resulting AttributeError, when it
occurs, escapes before the return. -/
def predictBeam [Inhabited σ] (sc : Scorer σ) (batch K m : Nat) (logAttn : Bool) :
    Except PyErr PredRet :=
  let final := runBeamLoop sc m (initBExs sc batch K)
  let hyps := final.map (fun x => prune_hyp (x.beam.getHyp x.beam.rank0))
  if logAttn then
    match hyps.mapM (fun h => (h.map PyVal.pyint).mapM PyVal.tolist) with
    | .error er => .error er
    | .ok _ => .ok (.pair hyps sc.edit)
  else .ok (.pair hyps sc.edit)

/-- predict of Seq2SeqModelCombined (lines 507-510): a beam_size of 1 is
routed to predict_greedy, anything else runs the beam branch.  No
validation of beam_size or of max_dec_len is performed. -/
def predictCombined [Inhabited σ] (sc : Scorer σ) (batch K m : Nat)
    (logAttn : Bool) : Except PyErr PredRet :=
  if K = 1 then predictGreedy sc batch m logAttn
  else predictBeam sc batch K m logAttn

/-! ## update_state on flat state tensors (lines 545-550) -/

/-- A 2-dimensional tensor as update_state sees it: e.size() = (rows,
cols) with row-major data. -/
structure Tensor2 where
  rows : Nat
  cols : Nat
  data : List (List Int)
deriving DecidableEq

/-- update_state (lines 545-550) on one state tensor e of size (br, d):
e.contiguous().view(beam_size, br // beam_size, d) raises unless the
element counts match (and br // beam_size raises ZeroDivisionError for
beam_size = 0); the slice [:, idx] raises when idx is out of range of the
middle dimension; index_select(0, positions) raises on a position outside
the beam dimension.  Otherwise row k*m + idx (m = br // beam_size) is
overwritten with row positions[k]*m + idx. -/
def update_state (K idx : Nat) (positions : List Nat) (e : Tensor2) :
    Except PyErr Tensor2 :=
  if K = 0 then .error .zeroDivisionError
  else if K * (e.rows / K) * e.cols ≠ e.rows * e.cols then .error .runtimeError
  else if e.rows / K ≤ idx then .error .indexError
  else if positions.any (fun p => decide (K ≤ p)) then .error .indexError
  else
    let m := e.rows / K
    .ok { e with data := (List.range e.rows).map (fun r =>
      if r % m = idx then e.data.getD ((positions.getD (r / m) 0) * m + idx) []
      else e.data.getD r []) }

/-! ## The lexicon-dropout block of forward (lines 404-418) -/

/-- The stub lemma row forward substitutes for a dropped lexicon row (lines
406-409): start-of-sequence, end-of-sequence, then padding. -/
def lexStub (w : Nat) : List Nat := SOS_ID :: EOS_ID :: List.replicate (w - 2) PAD_ID

/-- The stub mask row (line 410): three zeros then ones. -/
def lexMaskStub (w : Nat) : List Nat := 0 :: 0 :: 0 :: List.replicate (w - 3) 1

/-- The lexicon-dropout block of forward (lines 404-418), with the uniform
draws of line 411 made explicit (one rational draw in [0, 1) per row):
when the model has a lexicon and lexicon_dropout is positive, every row
whose draw is below the dropout probability is overwritten in the
caller-provided lem and lem_mask buffers with the stub rows.  The returned
pair is the content of those buffers after forward's block has run. -/
def applyLexiconDropout (isLexicon : Bool) (dropout : ℚ) (draws : List ℚ)
    (lem lemMask : List (List Nat)) : List (List Nat) × List (List Nat) :=
  if isLexicon = true ∧ 0 < dropout then
    let w := (lem.headD []).length
    let hide := draws.map (fun u => decide (u < dropout))
    if hide.any id then
      ((lem.zip hide).map (fun p => if p.2 then lexStub w else p.1),
       (lemMask.zip hide).map (fun p => if p.2 then lexMaskStub w else p.1))
    else (lem, lemMask)
  else (lem, lemMask)

/-! ## Concrete scorers used by witnesses and counterexamples -/

/-- A scorer whose argmax is always token 3 (a regular, non-control token)
and which never prefers end-of-sequence. -/
def scPlain : Scorer Unit :=
  ⟨fun _ => (), fun _ _ => (), fun _ => [-3, -3, -3, 0], fun _ => [], none⟩

/-- A scorer whose argmax is always the padding token. -/
def scPad : Scorer Unit :=
  ⟨fun _ => (), fun _ _ => (), fun _ => [0, -5, -5, -5], fun _ => [], none⟩

/-- A scorer whose argmax is always the start-of-sequence token. -/
def scSos : Scorer Unit :=
  ⟨fun _ => (), fun _ _ => (), fun _ => [-5, 0, -5, -5], fun _ => [], none⟩

/-- A scorer whose argmax is immediately end-of-sequence. -/
def scEos : Scorer Unit :=
  ⟨fun _ => (), fun _ _ => (), fun _ => [-1, -1, 0, -1], fun _ => [], none⟩

/-! ## The simulation relation between the greedy path and the width-1 beam
path, used for the beam-width-1 equivalence development -/

/-- The chain of tokens a width-1 Beam has recorded: the greedy output plus
the terminating end-of-sequence token when the example finished. -/
def chainOf (out : List Nat) (done : Bool) : List Nat :=
  if done then out ++ [EOS_ID] else out

/-- Simulation relation between one example's greedy state and its width-1
beam state: the done flags agree, the beam's token rows are exactly the
greedy chain (one singleton row per step), every backpointer row is [0],
the score row stays a singleton, and while the example is live the beam's
single slot carries the greedy recurrent state and current token. -/
def GBRel (g : GEx σ) (be : BEx σ) : Prop :=
  be.beam.width = 1 ∧
  be.beam.done = g.done ∧
  be.beam.tokRows = (chainOf g.out g.done).map (fun t => [t]) ∧
  be.beam.bpRows = (chainOf g.out g.done).map (fun _ => [0]) ∧
  be.beam.scores.length = 1 ∧
  (g.done = false → be.sts = [g.st] ∧ be.beam.curTokens = [g.cur])

/-! ## Helper lemmas about candidate selection -/

theorem pickBest_mem (c : Nat × Int) (cs : List (Nat × Int)) :
    pickBest c cs ∈ c :: cs := by
  induction cs generalizing c with
  | nil => simp [pickBest]
  | cons x xs ih =>
    simp only [pickBest, List.foldl_cons]
    have h := ih (if c.2 < x.2 then x else c)
    simp only [pickBest] at h
    rcases List.mem_cons.mp h with h1 | h1
    · rw [h1]; by_cases hlt : c.2 < x.2 <;> simp [hlt]
    · simp [h1]

theorem argBest_mem {l : List (Nat × Int)} {c : Nat × Int}
    (h : argBest l = some c) : c ∈ l := by
  cases l with
  | nil => simp [argBest] at h
  | cons x xs =>
    simp only [argBest, Option.some.injEq] at h
    exact h ▸ pickBest_mem x xs

theorem idxFrom_mem_lt {l : List Int} :
    ∀ {n : Nat} {c : Nat × Int}, c ∈ idxFrom n l → c.1 < n + l.length := by
  induction l with
  | nil => intro n c h; simp [idxFrom] at h
  | cons x xs ih =>
    intro n c h
    simp only [idxFrom, List.mem_cons] at h
    rcases h with h | h
    · subst h; simp only [List.length_cons]; omega
    · have := ih h; simp only [List.length_cons]; omega

theorem pickBest_shift (a : Int) (c : Nat × Int) (cs : List (Nat × Int)) :
    pickBest (c.1, a + c.2) (cs.map (fun p => (p.1, a + p.2))) =
      ((pickBest c cs).1, a + (pickBest c cs).2) := by
  induction cs generalizing c with
  | nil => simp [pickBest]
  | cons x xs ih =>
    simp only [pickBest, List.map_cons, List.foldl_cons] at *
    by_cases hlt : c.2 < x.2
    · simpa [hlt] using ih x
    · simpa [hlt] using ih c

theorem argBest_shift (a : Int) (l : List (Nat × Int)) :
    argBest (l.map (fun p => (p.1, a + p.2))) =
      (argBest l).map (fun p => (p.1, a + p.2)) := by
  cases l with
  | nil => simp [argBest]
  | cons x xs => simp [argBest, pickBest_shift a x xs]

theorem argBest_idxFrom_nonnil {l : List Int} (h : l ≠ []) :
    ∃ c, argBest (idxFrom 0 l) = some c ∧ c.1 < l.length := by
  cases l with
  | nil => exact absurd rfl h
  | cons x xs =>
    refine ⟨pickBest (0, x) (idxFrom 1 xs), rfl, ?_⟩
    have hm := pickBest_mem (0, x) (idxFrom 1 xs)
    rcases List.mem_cons.mp hm with h1 | h1
    · simp [h1]
    · have := idxFrom_mem_lt h1; simpa [Nat.add_comm] using this

theorem selectTop_one (l : List (Nat × Int)) :
    selectTop 1 l = match argBest l with
      | none => []
      | some c => [c] := by
  cases h : argBest l <;> simp [selectTop, h]

/-! ## Helper lemmas about pruning and backtracing -/

theorem isControl_eos : isControl EOS_ID = true := by decide

theorem prune_hyp_concat_eos (l : List Nat) :
    prune_hyp (l ++ [EOS_ID]) = prune_hyp l := by
  unfold prune_hyp
  rw [List.dropWhile_append]
  by_cases h : (List.dropWhile isControl l).isEmpty
  · rw [if_pos h]
    rw [List.isEmpty_iff] at h
    rw [h]
    simp [List.dropWhile, isControl_eos]
  · rw [if_neg h]
    simp [List.reverse_append, List.dropWhile_cons, isControl_eos]

theorem backtrace_map_chain (l : List Nat) :
    backtrace (l.map (fun t => ([t], ([0] : List Nat)))) 0 = l.reverse := by
  induction l with
  | nil => rfl
  | cons t ts ih => simp [backtrace, ih]

theorem getHyp_chain (b : Beam) (chain : List Nat)
    (ht : b.tokRows = chain.map (fun t => [t]))
    (hb : b.bpRows = chain.map (fun _ => [0])) :
    b.getHyp 0 = chain := by
  unfold Beam.getHyp
  rw [ht, hb]
  have hz := List.zip_map' (fun (t : Nat) => [t]) (fun _ => ([0] : List Nat)) chain
  have hrev : (chain.map (fun t => ([t], ([0] : List Nat)))).reverse
      = chain.reverse.map (fun t => ([t], ([0] : List Nat))) :=
    (List.map_reverse _ _).symm
  rw [hz, hrev, backtrace_map_chain, List.reverse_reverse]

theorem rank0_singleton (b : Beam) (h : b.scores.length = 1) : b.rank0 = 0 := by
  obtain ⟨y, hy⟩ := List.length_eq_one.mp h
  simp [Beam.rank0, hy, idxFrom, argBest, pickBest]

theorem getLastD_concat_self {α : Type} (l : List α) (x : α) :
    ∀ d : α, (l ++ [x]).getLastD d = x := by
  induction l with
  | nil => intro d; rfl
  | cons a l ih => intro d; rw [List.cons_append, List.getLastD_cons]; exact ih a

/-! ## Characterization of advance on a live width-1 Beam -/

theorem advance_w1 (b : Beam) (lp : List Int) (hlp : lp ≠ [])
    (hw : b.width = 1) (hd : b.done = false) :
    ∃ y, b.advance [lp] =
      { width := 1, done := decide (argmaxIdx lp = EOS_ID),
        scores := [y],
        tokRows := b.tokRows ++ [[argmaxIdx lp]],
        bpRows := b.bpRows ++ [[0]],
        curTokens := [argmaxIdx lp] } := by
  obtain ⟨c, hc, hlt⟩ := argBest_idxFrom_nonnil hlp
  have hmod : c.1 % lp.length = c.1 := Nat.mod_eq_of_lt hlt
  have hdiv : c.1 / lp.length = 0 := Nat.div_eq_of_lt hlt
  have hidx : argmaxIdx lp = c.1 := by simp [argmaxIdx, hc]
  by_cases hE : b.bpRows.isEmpty
  · refine ⟨c.2, ?_⟩
    simp only [Beam.advance, hd, Bool.false_eq_true, if_false, hE, if_true,
      List.headD_cons, hw, selectTop_one, hc, List.map_cons, List.map_nil,
      List.headD_cons, hmod, hdiv, hidx]
  · refine ⟨b.scores.getD 0 0 + c.2, ?_⟩
    have hab : argBest ((idxFrom 0 lp).map
        (fun q => (q.1, b.scores.getD 0 0 + q.2)))
        = some (c.1, b.scores.getD 0 0 + c.2) := by
      rw [argBest_shift, hc]; rfl
    simp only [Beam.advance, hd, Bool.false_eq_true, if_false, hE,
      List.length_cons, List.length_nil, Nat.zero_add, hw, selectTop_one,
      List.headD_cons]
    have hcands : ((List.range (1 : Nat)).flatMap fun i =>
        List.map (fun q => (i * lp.length + q.1, b.scores.getD i 0 + q.2))
          (idxFrom 0 ([lp].getD i [])))
        = List.map (fun q => (q.1, b.scores.getD 0 0 + q.2)) (idxFrom 0 lp) := by
      simp [List.range_succ]
    rw [hcands, hab]
    simp only [List.map_cons, List.map_nil, List.headD_cons, hmod, hdiv, hidx]

/-! ## One-step simulation between the greedy path and the width-1 beam path -/

theorem rel_step [Inhabited σ] (sc : Scorer σ) (hwf : ∀ s, sc.outFn s ≠ [])
    (g : GEx σ) (be : BEx σ) (h : GBRel g be) :
    GBRel (gstep sc g) (bstepEx sc be) := by
  obtain ⟨hw, hd, ht, hb, hs, hnd⟩ := h
  by_cases hgd : g.done = true
  · have hbd : be.beam.done = true := by rw [hd, hgd]
    have hadv : ∀ lps, be.beam.advance lps = be.beam := by
      intro lps; simp [Beam.advance, hbd]
    refine ⟨?_, ?_, ?_, ?_, ?_, ?_⟩
    · simpa [bstepEx, hadv] using hw
    · simp [bstepEx, hadv, gstep, gstepA, hbd, hgd]
    · simpa [bstepEx, hadv, gstep, gstepA, hgd] using ht
    · simpa [bstepEx, hadv, gstep, gstepA, hgd] using hb
    · simpa [bstepEx, hadv] using hs
    · intro hcon
      simp [gstep, gstepA, hgd] at hcon
  · have hgd' : g.done = false := by simpa using hgd
    obtain ⟨hst, hct⟩ := hnd hgd'
    have hbd : be.beam.done = false := by rw [hd, hgd']
    have hstep : (be.sts.zip be.beam.curTokens).map (fun p => sc.stepFn p.1 p.2)
        = [sc.stepFn g.st g.cur] := by
      rw [hst, hct]; rfl
    obtain ⟨y, hadv⟩ :=
      advance_w1 be.beam (sc.outFn (sc.stepFn g.st g.cur))
        (hwf (sc.stepFn g.st g.cur)) hw hbd
    have hbeam : (bstepEx sc be).beam =
        { width := 1,
          done := decide (argmaxIdx (sc.outFn (sc.stepFn g.st g.cur)) = EOS_ID),
          scores := [y],
          tokRows := be.beam.tokRows
            ++ [[argmaxIdx (sc.outFn (sc.stepFn g.st g.cur))]],
          bpRows := be.beam.bpRows ++ [[0]],
          curTokens := [argmaxIdx (sc.outFn (sc.stepFn g.st g.cur))] } := by
      simp only [bstepEx, hstep, List.map_cons, List.map_nil]
      exact hadv
    have hsts : (bstepEx sc be).sts = [sc.stepFn g.st g.cur] := by
      simp only [bstepEx, hstep, List.map_cons, List.map_nil, hw, hadv,
        Beam.curOrigin, getLastD_concat_self, List.range_succ, List.range_zero]
      rfl
    have hg : gstep sc g =
        ⟨sc.stepFn g.st g.cur,
         argmaxIdx (sc.outFn (sc.stepFn g.st g.cur)),
         decide (argmaxIdx (sc.outFn (sc.stepFn g.st g.cur)) = EOS_ID),
         if argmaxIdx (sc.outFn (sc.stepFn g.st g.cur)) = EOS_ID then g.out
         else g.out ++ [argmaxIdx (sc.outFn (sc.stepFn g.st g.cur))]⟩ := by
      simp [gstep, gstepA, hgd']
    refine ⟨?_, ?_, ?_, ?_, ?_, ?_⟩
    · rw [hbeam]
    · rw [hbeam, hg]
    · rw [hbeam, hg, ht, hgd']
      by_cases hpe : argmaxIdx (sc.outFn (sc.stepFn g.st g.cur)) = EOS_ID
      <;> simp [chainOf, hpe]
    · rw [hbeam, hg, hb, hgd']
      by_cases hpe : argmaxIdx (sc.outFn (sc.stepFn g.st g.cur)) = EOS_ID
      <;> simp [chainOf, hpe]
    · rw [hbeam]; rfl
    · intro hcon
      exact ⟨by rw [hsts, hg], by rw [hbeam, hg]⟩

theorem rel_step_done [Inhabited σ] (sc : Scorer σ) (g : GEx σ) (be : BEx σ)
    (h : GBRel g be) (hgd : g.done = true) : GBRel g (bstepEx sc be) := by
  obtain ⟨hw, hd, ht, hb, hs, hnd⟩ := h
  have hbd : be.beam.done = true := by rw [hd, hgd]
  have hadv : ∀ lps, be.beam.advance lps = be.beam := by
    intro lps; simp [Beam.advance, hbd]
  refine ⟨by simpa [bstepEx, hadv] using hw, by simpa [bstepEx, hadv] using hd,
    by simpa [bstepEx, hadv] using ht, by simpa [bstepEx, hadv] using hb,
    by simpa [bstepEx, hadv] using hs, ?_⟩
  intro hcon
  simp [hgd] at hcon

theorem forall2_allDone {gs : List (GEx σ)} {bs : List (BEx σ)}
    (h : List.Forall₂ GBRel gs bs) :
    gs.all (fun e => e.done) = bs.all (fun e => e.beam.done) := by
  induction h with
  | nil => rfl
  | cons hr _ ih => simp [List.all_cons, ih, hr.2.1]

theorem forall2_map_step [Inhabited σ] (sc : Scorer σ)
    (hwf : ∀ s, sc.outFn s ≠ []) {gs : List (GEx σ)} {bs : List (BEx σ)}
    (h : List.Forall₂ GBRel gs bs) :
    List.Forall₂ GBRel (gs.map (gstep sc)) (bs.map (bstepEx sc)) := by
  induction h with
  | nil => exact List.Forall₂.nil
  | cons hr _ ih =>
    simp only [List.map_cons]
    exact List.Forall₂.cons (rel_step sc hwf _ _ hr) ih

theorem forall2_map_step_done [Inhabited σ] (sc : Scorer σ)
    {gs : List (GEx σ)} {bs : List (BEx σ)}
    (h : List.Forall₂ GBRel gs bs)
    (hall : gs.all (fun e => e.done) = true) :
    List.Forall₂ GBRel gs (bs.map (bstepEx sc)) := by
  induction h with
  | nil => exact List.Forall₂.nil
  | cons hr htl ih =>
    simp only [List.all_cons, Bool.and_eq_true] at hall
    simp only [List.map_cons]
    exact List.Forall₂.cons (rel_step_done sc _ _ hr hall.1) (ih hall.2)

theorem grun_allDone (sc : Scorer σ) (fuel : Nat) (gs : GState σ)
    (h : gs.exs.all (fun e => e.done) = true) : grun sc fuel gs = gs := by
  cases fuel with
  | zero => rfl
  | succ n => simp [grun, h]

theorem grun_succ_live (sc : Scorer σ) (n : Nat) (gs : List (GEx σ))
    (a : List (List (List Int)))
    (hall : gs.all (fun e => e.done) = false) :
    grun sc (n + 1) ⟨gs, a⟩ =
      grun sc n ⟨gs.map (gstep sc), a ++ [(gs.map (gstepA sc)).map Prod.snd]⟩ := by
  simp only [grun, hall, Bool.false_eq_true, if_false]
  congr 1
  rw [List.map_map]
  rfl

theorem runBeamLoop_succ [Inhabited σ] (sc : Scorer σ) (n : Nat)
    (st : List (BEx σ)) :
    runBeamLoop sc (n + 1) st =
      if (st.map (bstepEx sc)).all (fun e => e.beam.done) then st.map (bstepEx sc)
      else runBeamLoop sc n (st.map (bstepEx sc)) := by
  show (runBeamLoopN sc (n + 1) st).1 = _
  have hunf : runBeamLoopN sc (n + 1) st =
      (let st' := st.map (bstepEx sc)
       if st'.all (fun e => e.beam.done) then (st', 1)
       else
         let r := runBeamLoopN sc n st'
         (r.1, r.2 + 1)) := rfl
  rw [hunf]
  dsimp only
  by_cases h : (st.map (bstepEx sc)).all (fun e => e.beam.done) = true
  · rw [if_pos h, if_pos h]
  · rw [if_neg h, if_neg h]; rfl

theorem sim_loop [Inhabited σ] (sc : Scorer σ) (hwf : ∀ s, sc.outFn s ≠ []) :
    ∀ (fuel : Nat) (gs : List (GEx σ)) (a : List (List (List Int)))
      (bs : List (BEx σ)), List.Forall₂ GBRel gs bs →
      List.Forall₂ GBRel (grun sc fuel ⟨gs, a⟩).exs (runBeamLoop sc fuel bs) := by
  intro fuel
  induction fuel with
  | zero => intro gs a bs h; exact h
  | succ n ih =>
    intro gs a bs h
    rw [runBeamLoop_succ]
    by_cases hall : gs.all (fun e => e.done) = true
    · rw [grun_allDone sc _ _ hall]
      have h2 := forall2_map_step_done sc h hall
      have hall2 : (bs.map (bstepEx sc)).all (fun e => e.beam.done) = true := by
        rw [← forall2_allDone h2]; exact hall
      rw [if_pos hall2]
      exact h2
    · have hall' : gs.all (fun e => e.done) = false := by
        simpa using hall
      rw [grun_succ_live sc n gs a hall']
      have h2 := forall2_map_step sc hwf h
      by_cases hall2 : (bs.map (bstepEx sc)).all (fun e => e.beam.done) = true
      · rw [if_pos hall2]
        have hgall : (gs.map (gstep sc)).all (fun e => e.done) = true := by
          rw [forall2_allDone h2]; exact hall2
        rw [grun_allDone sc _ _ hgall]
        exact h2
      · rw [if_neg hall2]
        exact ih (gs.map (gstep sc)) _ (bs.map (bstepEx sc)) h2

theorem rel_output {g : GEx σ} {be : BEx σ} (h : GBRel g be) :
    prune_hyp (be.beam.getHyp be.beam.rank0) = prune_hyp g.out := by
  obtain ⟨hw, hd, ht, hb, hs, hnd⟩ := h
  rw [rank0_singleton _ hs, getHyp_chain _ _ ht hb]
  cases hgd : g.done <;> simp [chainOf, hgd, prune_hyp_concat_eos]

theorem forall2_output_eq {gs : List (GEx σ)} {bs : List (BEx σ)}
    (h : List.Forall₂ GBRel gs bs) :
    bs.map (fun x => prune_hyp (x.beam.getHyp x.beam.rank0))
      = gs.map (fun g => prune_hyp g.out) := by
  induction h with
  | nil => rfl
  | cons hr _ ih => simp only [List.map_cons, ih, rel_output hr]

theorem init_rel (sc : Scorer σ) (b : Nat) :
    List.Forall₂ GBRel (initGExs sc b) (initBExs sc b 1) := by
  unfold initGExs initBExs
  have hgen : ∀ l : List Nat, List.Forall₂ GBRel
      (l.map (fun i => (⟨sc.initSt i, SOS_ID, false, []⟩ : GEx σ)))
      (l.map (fun i =>
        (⟨List.replicate 1 (sc.initSt i), Beam.init 1⟩ : BEx σ))) := by
    intro l
    induction l with
    | nil => exact List.Forall₂.nil
    | cons x xs ih =>
      simp only [List.map_cons]
      refine List.Forall₂.cons ⟨rfl, rfl, ?_, ?_, rfl, ?_⟩ ih
      · simp [chainOf, Beam.init]
      · simp [chainOf, Beam.init]
      · intro _; exact ⟨rfl, by simp [Beam.init]⟩
  exact hgen _

/-! ## Unfolding and bookkeeping lemmas for the beam loop -/

theorem runBeamLoopN_succ [Inhabited σ] (sc : Scorer σ) (n : Nat)
    (st : List (BEx σ)) :
    runBeamLoopN sc (n + 1) st =
      if (st.map (bstepEx sc)).all (fun e => e.beam.done)
      then (st.map (bstepEx sc), 1)
      else ((runBeamLoopN sc n (st.map (bstepEx sc))).1,
            (runBeamLoopN sc n (st.map (bstepEx sc))).2 + 1) := rfl

theorem getD_map_of_lt {α β : Type} (f : α → β) (l : List α) (i : Nat)
    (h : i < l.length) (d : α) (d' : β) :
    (l.map f).getD i d' = f (l.getD i d) := by
  rw [List.getD_eq_getElem _ _ (by simpa using h), List.getD_eq_getElem _ _ h]
  simp

theorem getD_mem_of_lt {α : Type} (l : List α) (i : Nat) (h : i < l.length)
    (d : α) : l.getD i d ∈ l := by
  rw [List.getD_eq_getElem _ _ h]
  exact List.getElem_mem _

theorem runBeamLoop_length [Inhabited σ] (sc : Scorer σ) :
    ∀ (m : Nat) (st : List (BEx σ)), (runBeamLoop sc m st).length = st.length := by
  intro m
  induction m with
  | zero => intro st; rfl
  | succ n ih =>
    intro st
    rw [runBeamLoop_succ]
    by_cases h : (st.map (bstepEx sc)).all (fun e => e.beam.done) = true
    · rw [if_pos h]; simp
    · rw [if_neg h, ih]; simp

theorem bstep_done_mono [Inhabited σ] (sc : Scorer σ) (e : BEx σ)
    (h : e.beam.done = true) : (bstepEx sc e).beam.done = true := by
  simp [bstepEx, Beam.advance, h]

theorem bstep_rows_succ [Inhabited σ] (sc : Scorer σ) (e : BEx σ)
    (h : e.beam.done = false) :
    (bstepEx sc e).beam.tokRows.length = e.beam.tokRows.length + 1 := by
  simp [bstepEx, Beam.advance, h]

theorem runBeamLoop_done_mono [Inhabited σ] (sc : Scorer σ) :
    ∀ (m : Nat) (st : List (BEx σ)) (e : Nat), e < st.length →
      (st.getD e dBEx).beam.done = true →
      ((runBeamLoop sc m st).getD e dBEx).beam.done = true := by
  intro m
  induction m with
  | zero => intro st e he h; exact h
  | succ n ih =>
    intro st e he h
    rw [runBeamLoop_succ]
    have hmap : ((st.map (bstepEx sc)).getD e dBEx) = bstepEx sc (st.getD e dBEx) :=
      getD_map_of_lt _ _ _ he _ _
    by_cases hall : ((st.map (bstepEx sc)).all (fun x => x.beam.done)) = true
    · rw [if_pos hall, hmap]
      exact bstep_done_mono sc _ h
    · rw [if_neg hall]
      exact ih _ e (by simpa using he) (by rw [hmap]; exact bstep_done_mono sc _ h)

theorem runBeamLoop_rows [Inhabited σ] (sc : Scorer σ) :
    ∀ (m : Nat) (st : List (BEx σ)) (e : Nat), e < st.length →
      ((runBeamLoop sc m st).getD e dBEx).beam.done = false →
      ((runBeamLoop sc m st).getD e dBEx).beam.tokRows.length
        = (st.getD e dBEx).beam.tokRows.length + m := by
  intro m
  induction m with
  | zero => intro st e he h; simp [runBeamLoop, runBeamLoopN]
  | succ n ih =>
    intro st e he hdone
    rw [runBeamLoop_succ] at hdone ⊢
    have hmap : ((st.map (bstepEx sc)).getD e dBEx) = bstepEx sc (st.getD e dBEx) :=
      getD_map_of_lt _ _ _ he _ _
    by_cases hall : ((st.map (bstepEx sc)).all (fun x => x.beam.done)) = true
    · rw [if_pos hall] at hdone ⊢
      exfalso
      have hmem : (st.map (bstepEx sc)).getD e dBEx ∈ st.map (bstepEx sc) :=
        getD_mem_of_lt _ _ (by simpa using he) _
      have := (List.all_eq_true.mp hall) _ hmem
      rw [this] at hdone
      cases hdone
    · rw [if_neg hall] at hdone ⊢
      have hstep_not : (st.getD e dBEx).beam.done = false := by
        by_contra hc
        have hc' : (st.getD e dBEx).beam.done = true := by
          cases hx : (st.getD e dBEx).beam.done
          · exact absurd hx hc
          · rfl
        have hmono := runBeamLoop_done_mono sc n (st.map (bstepEx sc)) e
          (by simpa using he)
          (by rw [hmap]; exact bstep_done_mono sc _ hc')
        rw [hmono] at hdone
        cases hdone
      have hrec := ih (st.map (bstepEx sc)) e (by simpa using he) hdone
      rw [hrec, hmap, bstep_rows_succ sc _ hstep_not]
      omega

/-! ## Invariant lemmas for the greedy loop -/

theorem gstep_frozen (sc : Scorer σ) (e : GEx σ) (h : e.done = true) :
    (gstep sc e).out = e.out := by
  simp [gstep, gstepA, h]

theorem gstep_no_eos (sc : Scorer σ) (e : GEx σ) (h : EOS_ID ∉ e.out) :
    EOS_ID ∉ (gstep sc e).out := by
  simp only [gstep, gstepA]
  by_cases hd : e.done
  · simpa [hd] using h
  · by_cases hp : argmaxIdx (sc.outFn (sc.stepFn e.st e.cur)) = EOS_ID
    · simpa [hd, hp] using h
    · simp only [hd, hp, if_false, Bool.false_eq_true]
      intro hc
      rcases List.mem_append.mp hc with hc | hc
      · exact h hc
      · simp only [List.mem_singleton] at hc
        exact hp hc.symm

theorem gstep_len (sc : Scorer σ) (e : GEx σ) :
    (gstep sc e).out.length ≤ e.out.length + 1 := by
  simp only [gstep, gstepA]
  by_cases hd : e.done
  · simp [hd]
  · by_cases hp : argmaxIdx (sc.outFn (sc.stepFn e.st e.cur)) = EOS_ID
    · simp [hd, hp]
    · simp [hd, hp]

theorem grun_no_eos (sc : Scorer σ) :
    ∀ (fuel : Nat) (exs : List (GEx σ)) (a : List (List (List Int))),
      (∀ e ∈ exs, EOS_ID ∉ e.out) →
      ∀ e ∈ (grun sc fuel ⟨exs, a⟩).exs, EOS_ID ∉ e.out := by
  intro fuel
  induction fuel with
  | zero => intro exs a h; exact h
  | succ n ih =>
    intro exs a h
    by_cases hall : exs.all (fun e => e.done) = true
    · rw [grun_allDone sc _ _ hall]; exact h
    · have hall' : exs.all (fun e => e.done) = false := by simpa using hall
      rw [grun_succ_live sc n exs a hall']
      apply ih
      intro e he
      obtain ⟨x, hx, rfl⟩ := List.mem_map.mp he
      exact gstep_no_eos sc x (h x hx)

theorem grun_len (sc : Scorer σ) :
    ∀ (fuel : Nat) (exs : List (GEx σ)) (a : List (List (List Int))) (L : Nat),
      (∀ e ∈ exs, e.out.length ≤ L) →
      ∀ e ∈ (grun sc fuel ⟨exs, a⟩).exs, e.out.length ≤ L + fuel := by
  intro fuel
  induction fuel with
  | zero => intro exs a L h e he; simpa using h e he
  | succ n ih =>
    intro exs a L h
    by_cases hall : exs.all (fun e => e.done) = true
    · rw [grun_allDone sc _ _ hall]
      intro e he
      have := h e he
      omega
    · have hall' : exs.all (fun e => e.done) = false := by simpa using hall
      rw [grun_succ_live sc n exs a hall']
      intro e he
      have hstep : ∀ x ∈ exs.map (gstep sc), x.out.length ≤ L + 1 := by
        intro x hx
        obtain ⟨y, hy, rfl⟩ := List.mem_map.mp hx
        have h1 := gstep_len sc y
        have h2 := h y hy
        omega
      have := ih (exs.map (gstep sc)) _ (L + 1) hstep e he
      omega

theorem map_const_eq_replicate {α β : Type} (l : List α) (c : β) :
    l.map (fun _ => c) = List.replicate l.length c := by
  induction l with
  | nil => rfl
  | cons x xs ih => simp [ih, List.replicate_succ]

/-! ## Claim theorems -/

/-- C1, counterexample: the claim that predict with beam_size 1 is
behaviorally equivalent to the general beam path with width 1, including
the shape of the returned result, is false at a concrete input.  With the
scorer whose argmax is always the padding token, batch 1 and max_dec_len 3,
predict (routed to predict_greedy) returns the 3-tuple shape with output
[PAD, PAD, PAD], while the beam branch at width 1 returns the 2-tuple shape
with output [] (the pruning of control tokens removes the padding tokens);
both the shapes and the per-example token sequences differ. -/
theorem c1_counterexample :
    predictCombined scPad 1 1 3 false ≠ predictBeam scPad 1 1 3 false ∧
    (predictCombined scPad 1 1 3 false).toOption.map retHyps ≠
      (predictBeam scPad 1 1 3 false).toOption.map retHyps := by
  constructor
  · decide
  · decide

/-- C1 (amended): predict with beam_size 1 is routed to predict_greedy,
whose result carries an extra attention component (a 3-tuple against the
beam branch's 2-tuple); and for every scorer with nonempty log-probability
rows the beam branch at width 1 returns, per example, exactly the greedy
path's output sequence with leading and trailing control tokens stripped —
in particular the two paths choose the same token at every step and
coincide whenever no control token is chosen. -/
theorem c1_beam1_amended [Inhabited σ] (sc : Scorer σ)
    (hwf : ∀ s, sc.outFn s ≠ []) (b m : Nat) (la : Bool) :
    predictCombined sc b 1 m la = predictGreedy sc b m la ∧
    predictBeam sc b 1 m false =
      .ok (.pair ((greedyHyps sc b m).map prune_hyp) sc.edit) := by
  refine ⟨rfl, ?_⟩
  have hsim := sim_loop sc hwf m (initGExs sc b) [] (initBExs sc b 1) (init_rel sc b)
  have hout := forall2_output_eq hsim
  simp only [predictBeam, Bool.false_eq_true, if_false]
  rw [hout]
  unfold greedyHyps
  rw [List.map_map]
  rfl

/-- C1 witness: the amended equivalence applied to a concrete scorer whose
argmax is always a regular token. -/
theorem c1_beam1_amended_witness :
    (∀ s : Unit, scPlain.outFn s ≠ []) ∧
    (predictCombined scPlain 1 1 2 false = predictGreedy scPlain 1 2 false ∧
     predictBeam scPlain 1 1 2 false =
       .ok (.pair ((greedyHyps scPlain 1 2).map prune_hyp) scPlain.edit)) :=
  ⟨fun s => by cases s; decide,
   c1_beam1_amended scPlain (fun s => by cases s; decide) 1 2 false⟩

/-- C2: the second component of runBeamLoopN counts the loop iterations of
predict's main loop, i.e. the rounds of Scorer decode calls.  If after some
step t every example's Beam reports done, the loop has stopped by step t:
at most t+1 decode rounds are ever executed, even when t is strictly
smaller than max_steps − 1. -/
theorem c2_early_stop [Inhabited σ] (sc : Scorer σ) (st : List (BEx σ))
    (t m : Nat) (hlt : t < m)
    (hdone : (((fun s => s.map (bstepEx sc))^[t + 1]) st).all
      (fun e => e.beam.done) = true) :
    (runBeamLoopN sc m st).2 ≤ t + 1 := by
  induction t generalizing st m with
  | zero =>
    obtain ⟨m', rfl⟩ : ∃ m', m = m' + 1 := ⟨m - 1, by omega⟩
    simp only [Function.iterate_succ_apply, Function.iterate_zero_apply] at hdone
    rw [runBeamLoopN_succ, if_pos hdone]
  | succ t ih =>
    obtain ⟨m', rfl⟩ : ∃ m', m = m' + 1 := ⟨m - 1, by omega⟩
    rw [runBeamLoopN_succ]
    by_cases hall : ((st.map (bstepEx sc)).all (fun e => e.beam.done)) = true
    · rw [if_pos hall]
      omega
    · rw [if_neg hall]
      have hdone' : (((fun s => s.map (bstepEx sc))^[t + 1])
          (st.map (bstepEx sc))).all (fun e => e.beam.done) = true := by
        rw [← Function.iterate_succ_apply]
        exact hdone
      have := ih (st.map (bstepEx sc)) m' (by omega) hdone'
      simpa using Nat.succ_le_succ this

/-- C2 witness: with a scorer that immediately tops end-of-sequence, every
Beam is done after the first step, and the loop with max_steps 5 executes
at most one decode round. -/
theorem c2_early_stop_witness :
    ((0 : Nat) < 5 ∧ (((fun s => s.map (bstepEx scEos))^[0 + 1])
      (initBExs scEos 1 2)).all (fun e => e.beam.done) = true) ∧
    (runBeamLoopN scEos 5 (initBExs scEos 1 2)).2 ≤ 0 + 1 :=
  ⟨⟨by decide, by decide⟩,
   c2_early_stop scEos (initBExs scEos 1 2) 0 5 (by decide) (by decide)⟩

/-- C3: when an example's Beam is still not done after the full loop (its
candidates never emitted end-of-sequence within max_steps), predict raises
no error: it returns normally, that example's output is the rank-0 result
of sort_best backtraced with get_hyp and pruned of control tokens, and its
Beam holds exactly max_steps recorded token rows (the loop never stopped
early, and the best-scoring incomplete hypothesis spans all steps). -/
theorem c3_exhaustion_returns [Inhabited σ] (sc : Scorer σ) (b K m e : Nat)
    (hK : K ≠ 1) (he : e < b)
    (hnd : ((runBeamLoop sc m (initBExs sc b K)).getD e dBEx).beam.done
      = false) :
    predictCombined sc b K m false =
      .ok (.pair ((runBeamLoop sc m (initBExs sc b K)).map
        (fun x => prune_hyp (x.beam.getHyp x.beam.rank0))) sc.edit) ∧
    ((runBeamLoop sc m (initBExs sc b K)).map
        (fun x => prune_hyp (x.beam.getHyp x.beam.rank0))).getD e []
      = prune_hyp
          (((runBeamLoop sc m (initBExs sc b K)).getD e dBEx).beam.getHyp
            ((runBeamLoop sc m (initBExs sc b K)).getD e dBEx).beam.rank0) ∧
    ((runBeamLoop sc m (initBExs sc b K)).getD e dBEx).beam.tokRows.length
      = m := by
  have hlen : e < (runBeamLoop sc m (initBExs sc b K)).length := by
    rw [runBeamLoop_length]
    simpa [initBExs] using he
  have hlen0 : e < (initBExs sc b K).length := by simpa [initBExs] using he
  refine ⟨?_, ?_, ?_⟩
  · simp only [predictCombined, if_neg hK, predictBeam, Bool.false_eq_true,
      if_false]
  · exact getD_map_of_lt _ _ _ hlen dBEx []
  · have hrows := runBeamLoop_rows sc m (initBExs sc b K) e hlen0 hnd
    have hinit : ((initBExs sc b K).getD e dBEx).beam.tokRows.length = 0 := by
      rw [show (initBExs sc b K).getD e dBEx
          = ⟨List.replicate K (sc.initSt ((List.range b).getD e 0)),
             Beam.init K⟩ from ?_]
      · rfl
      · exact getD_map_of_lt _ _ _ (by simpa using he) 0 dBEx
    omega

/-- C3 witness: a scorer that never prefers end-of-sequence leaves the Beam
not done after max_steps 2, and predict still returns its pruned rank-0
hypothesis with 2 recorded rows. -/
theorem c3_exhaustion_returns_witness :
    ((2 : Nat) ≠ 1 ∧ (0 : Nat) < 1 ∧
     ((runBeamLoop scPlain 2 (initBExs scPlain 1 2)).getD 0 dBEx).beam.done
       = false) ∧
    (predictCombined scPlain 1 2 2 false =
      .ok (.pair ((runBeamLoop scPlain 2 (initBExs scPlain 1 2)).map
        (fun x => prune_hyp (x.beam.getHyp x.beam.rank0))) scPlain.edit) ∧
     ((runBeamLoop scPlain 2 (initBExs scPlain 1 2)).map
        (fun x => prune_hyp (x.beam.getHyp x.beam.rank0))).getD 0 []
       = prune_hyp
          (((runBeamLoop scPlain 2 (initBExs scPlain 1 2)).getD 0 dBEx).beam.getHyp
            ((runBeamLoop scPlain 2 (initBExs scPlain 1 2)).getD 0 dBEx).beam.rank0) ∧
     ((runBeamLoop scPlain 2 (initBExs scPlain 1 2)).getD 0 dBEx).beam.tokRows.length
       = 2) :=
  ⟨⟨by decide, by decide, by decide⟩,
   c3_exhaustion_returns scPlain 1 2 2 0 (by decide) (by decide) (by decide)⟩

/-- C4, counterexample: the claim that predict with max_steps ≤ 0 fails
fast with a configuration error before any Scorer call is false: with
max_dec_len 0 the main loop body never runs and predict returns normally
(an empty hypothesis for the example and no error of any kind) — and the
embedding of predict invokes the encoder before any width check, mirroring
lines 512-527 of the source, which contain no validation at all. -/
theorem c4_counterexample :
    predictCombined scPlain 1 2 0 false = .ok (.pair [[]] none) := by decide

/-- C4 (amended): predict performs no validation of beam_size or max_steps.
With max_steps ≤ 0 (here 0, as max_dec_len is a natural number) it returns
normally for every scorer, every batch size and every beam_size, producing
an empty output sequence per example; the Scorer's encode has already been
consulted by then, and invalid beam sizes are not rejected anywhere before
it. -/
theorem c4_no_validation [Inhabited σ] (sc : Scorer σ) (b K : Nat) :
    ∃ r, predictCombined sc b K 0 false = .ok r ∧
      retHyps r = List.replicate b [] := by
  by_cases hK : K = 1
  · subst hK
    refine ⟨.triple ((grun sc 0 ⟨initGExs sc b, []⟩).exs.map
      (fun e => GEx.out e)) sc.edit none, ?_, ?_⟩
    · rfl
    show (initGExs sc b).map (fun e => e.out) = List.replicate b []
    unfold initGExs
    rw [List.map_map]
    have hc : ((fun (e : GEx σ) => e.out) ∘
        (fun i => (⟨sc.initSt i, SOS_ID, false, []⟩ : GEx σ)))
        = fun _ => ([] : List Nat) := rfl
    rw [hc, map_const_eq_replicate, List.length_range]
  · refine ⟨.pair ((initBExs sc b K).map
      (fun x => prune_hyp (x.beam.getHyp x.beam.rank0))) sc.edit, ?_, ?_⟩
    · simp only [predictCombined, if_neg hK, predictBeam, Bool.false_eq_true,
        if_false]
      rfl
    · show (initBExs sc b K).map
        (fun x => prune_hyp (x.beam.getHyp x.beam.rank0)) = List.replicate b []
      unfold initBExs
      rw [List.map_map]
      have hc : ((fun (x : BEx σ) => prune_hyp (x.beam.getHyp x.beam.rank0)) ∘
          (fun i => (⟨List.replicate K (sc.initSt i), Beam.init K⟩ : BEx σ)))
          = fun _ => ([] : List Nat) := by
        funext i
        show prune_hyp ((Beam.init K).getHyp (Beam.init K).rank0) = []
        rfl
      rw [hc, map_const_eq_replicate, List.length_range]

/-- C5: update_state on a state tensor with a nonempty row dimension whose
beam axis does not divide evenly by beam_size raises an error (the view
reshape of line 549 rejects the mismatched element count; a zero beam_size
raises on the division itself) instead of silently corrupting the state. -/
theorem c5_update_state_raises (K idx : Nat) (positions : List Nat)
    (e : Tensor2) (hd : 0 < e.cols) (hK : ¬ K ∣ e.rows) :
    ∃ er, update_state K idx positions e = .error er := by
  unfold update_state
  by_cases hK0 : K = 0
  · subst hK0
    exact ⟨.zeroDivisionError, by rw [if_pos rfl]⟩
  · have h1 : K * (e.rows / K) < e.rows := by
      have hdm := Nat.div_add_mod e.rows K
      have hmod : e.rows % K ≠ 0 := fun hc => hK (Nat.dvd_of_mod_eq_zero hc)
      omega
    have h2 : K * (e.rows / K) * e.cols ≠ e.rows * e.cols :=
      Nat.ne_of_lt ((Nat.mul_lt_mul_right hd).mpr h1)
    exact ⟨.runtimeError, by rw [if_neg hK0, if_pos h2]⟩

/-- C5 witness: a (3, 2) tensor with beam_size 2. -/
theorem c5_update_state_raises_witness :
    ((0 : Nat) < 2 ∧ ¬ (2 : Nat) ∣ 3) ∧
    ∃ er, update_state 2 0 [1, 0] ⟨3, 2, [[1, 1], [2, 2], [3, 3]]⟩
      = .error er :=
  ⟨⟨by decide, by decide⟩,
   c5_update_state_raises 2 0 [1, 0] ⟨3, 2, [[1, 1], [2, 2], [3, 3]]⟩
     (by decide) (by decide)⟩

/-- C6: the search layer is deterministic: predict consults nothing but its
arguments, so two scorers that agree pointwise on every interface function
(the fixed Scorer outputs) give identical predict results — in particular
two runs with the same inputs return identical token sequences and scores,
with no hidden randomness in the search itself. -/
theorem c6_deterministic [Inhabited σ] (sc sc' : Scorer σ)
    (h1 : ∀ i, sc.initSt i = sc'.initSt i)
    (h2 : ∀ s t, sc.stepFn s t = sc'.stepFn s t)
    (h3 : ∀ s, sc.outFn s = sc'.outFn s)
    (h4 : ∀ s, sc.attnFn s = sc'.attnFn s)
    (h5 : sc.edit = sc'.edit)
    (b K m : Nat) (la : Bool) :
    predictCombined sc b K m la = predictCombined sc' b K m la := by
  have hsc : sc = sc' := by
    cases sc
    cases sc'
    simp only [Scorer.mk.injEq]
    exact ⟨funext h1, funext (fun s => funext (h2 s)), funext h3, funext h4, h5⟩
  rw [hsc]

/-- C6 witness: the determinism theorem applied to a concrete scorer. -/
theorem c6_deterministic_witness :
    ((∀ i, scPlain.initSt i = scPlain.initSt i) ∧ scPlain.edit = scPlain.edit) ∧
    predictCombined scPlain 1 2 2 false = predictCombined scPlain 1 2 2 false :=
  ⟨⟨fun _ => rfl, rfl⟩,
   c6_deterministic scPlain scPlain (fun _ => rfl) (fun _ _ => rfl)
     (fun _ => rfl) (fun _ => rfl) rfl 1 2 2 false⟩

/-- C7: whenever predict returns normally, the edit-logits component of the
result is exactly the Scorer's encode-time edit value: it is computed from
the encoder's final state before the search loop starts (lines 529-532)
and is passed through unchanged by every branch and every number of decode
steps (lines 505 and 595). -/
theorem c7_edit_passthrough [Inhabited σ] (sc : Scorer σ) (b K m : Nat)
    (la : Bool) (r : PredRet)
    (h : predictCombined sc b K m la = .ok r) :
    retEdit r = sc.edit := by
  by_cases hK : K = 1
  · subst hK
    have hP : predictGreedy sc b m la = .ok r := h
    unfold predictGreedy at hP
    injection hP with h2
    rw [← h2]
    rfl
  · have hP : predictBeam sc b K m la = .ok r := by
      simpa [predictCombined, hK] using h
    simp only [predictBeam] at hP
    split at hP
    · split at hP
      · cases hP
      · injection hP with h2
        rw [← h2]
        rfl
    · injection hP with h2
      rw [← h2]
      rfl

/-- C7 witness: at a concrete scorer and input the returned edit component
equals the scorer's encode-time edit value. -/
theorem c7_edit_passthrough_witness :
    predictCombined scPlain 1 2 2 false = .ok (.pair [[3, 3]] none) ∧
    retEdit (.pair [[3, 3]] none) = scPlain.edit :=
  ⟨by decide, c7_edit_passthrough scPlain 1 2 2 false _ (by decide)⟩

/-- C8: the attention-logging flag is not a pure side channel on the beam
path.  At a concrete input whose decoded hypothesis is nonempty, predict
with log_attn = False returns normally, but predict with log_attn = True
raises AttributeError: line 582 converts the hypothesis entries to plain
Python ints with i.item(), and line 591 then calls .tolist() on them while
assembling the attention log.  The spec says the flag never affects the
search and the call completes whenever the non-logging call does; the code
crashes. -/
theorem c8_log_attn_crash :
    predictCombined scPlain 1 2 2 true = .error .attributeError ∧
    predictCombined scPlain 1 2 2 false = .ok (.pair [[3, 3]] none) := by
  constructor
  · decide
  · decide

/-- C9: the lexicon-dropout block of forward overwrites caller-provided lem
and lem_mask buffers: whenever the model has a lexicon and lexicon_dropout
is positive, there are inputs and uniform draws for which the buffers after
the call differ from the buffers passed in (a row whose draw falls below
the dropout probability is replaced by the stub sequence and stub mask). -/
theorem c9_lexicon_dropout_mutates (p : ℚ) (hp : 0 < p) :
    ∃ draws lem lemMask,
      applyLexiconDropout true p draws lem lemMask ≠ (lem, lemMask) := by
  refine ⟨[0], [[9, 9, 9, 9]], [[0, 0, 1, 1]], ?_⟩
  unfold applyLexiconDropout
  rw [if_pos ⟨rfl, hp⟩]
  have hdec : decide ((0 : ℚ) < p) = true := decide_eq_true hp
  simp only [List.map_cons, List.map_nil, hdec]
  simp [lexStub, lexMaskStub]

/-- C9 witness: dropout probability one half, one row, draw 0. -/
theorem c9_lexicon_dropout_mutates_witness :
    (0 : ℚ) < 1 / 2 ∧
    ∃ draws lem lemMask,
      applyLexiconDropout true (1 / 2) draws lem lemMask ≠ (lem, lemMask) :=
  ⟨by norm_num, c9_lexicon_dropout_mutates (1 / 2) (by norm_num)⟩

/-- C10, counterexample: the claim that greedy outputs never contain the
start-of-sequence token is false: with a scorer whose argmax is always
SOS, the greedy output contains SOS (the loop appends every predicted
non-EOS token, including a predicted SOS). -/
theorem c10_counterexample :
    SOS_ID ∈ (greedyHyps scSos 1 2).getD 0 [] := by decide

/-- C10 (amended): greedy outputs never contain the end-of-sequence token,
have length at most max_dec_len, and once an example is done one more loop
body appends nothing to its output (decoding may continue for the other
examples); the initially fed SOS is never part of the output, but a
predicted SOS token is appended like any regular token. -/
theorem c10_greedy_invariants (sc : Scorer σ) (b m i : Nat) :
    EOS_ID ∉ (greedyHyps sc b m).getD i [] ∧
    ((greedyHyps sc b m).getD i []).length ≤ m ∧
    (∀ e : GEx σ, e.done = true → (gstep sc e).out = e.out) := by
  have hinit0 : ∀ e ∈ initGExs sc b, e.out = [] := by
    intro e he
    obtain ⟨j, _, rfl⟩ := List.mem_map.mp he
    rfl
  refine ⟨?_, ?_, fun e h => gstep_frozen sc e h⟩
  · by_cases hi : i < (greedyHyps sc b m).length
    · have hmem := getD_mem_of_lt _ _ hi ([] : List Nat)
      obtain ⟨x, hx, hout⟩ := List.mem_map.mp hmem
      rw [← hout]
      refine grun_no_eos sc m (initGExs sc b) [] ?_ x hx
      intro e he
      rw [hinit0 e he]
      simp
    · rw [List.getD_eq_default _ _ (by omega)]
      simp
  · by_cases hi : i < (greedyHyps sc b m).length
    · have hmem := getD_mem_of_lt _ _ hi ([] : List Nat)
      obtain ⟨x, hx, hout⟩ := List.mem_map.mp hmem
      rw [← hout]
      have := grun_len sc m (initGExs sc b) [] 0 ?_ x hx
      · omega
      · intro e he
        rw [hinit0 e he]
        simp
    · rw [List.getD_eq_default _ _ (by omega)]
      simp

/-- C10 witness: the amended invariants at a concrete scorer and input,
including the freeze property at a concrete done example state. -/
theorem c10_greedy_invariants_witness :
    EOS_ID ∉ (greedyHyps scPlain 1 2).getD 0 [] ∧
    ((greedyHyps scPlain 1 2).getD 0 []).length ≤ 2 ∧
    (gstep scPlain ⟨(), 5, true, [3]⟩).out = [3] :=
  ⟨(c10_greedy_invariants scPlain 1 2 0).1,
   (c10_greedy_invariants scPlain 1 2 0).2.1,
   (c10_greedy_invariants scPlain 1 2 0).2.2 ⟨(), 5, true, [3]⟩ (by decide)⟩
